import Mathlib

/-!
Verification of the streaming response processor of the mindora_adk_agents
frontend (Angular).  The definitions below are shallow embeddings of the
TypeScript sources:

* `SC` — `SimplifiedChatComponent` (simplified-chat.component.ts):
  `processPart`, `processStreamChunk`, `insertMessageBeforeLoadingMessage`.
* `MPS` — `MessageProcessingService` (message-processing.service.ts):
  `processPart`, `processThoughtText`, `transformSessionEvents`,
  `formatBase64Data`.
* `LRE` — `LongRunningEventsService` (long-running-events.service.ts).
* `OAuth` — `OAuthHandlingService` (oauth-handling.service.ts).

Modelling conventions:

* JavaScript optional fields become `Option`; JS truthiness of a string
  field is `some s` with `s ≠ ""`; truthiness of a boolean field is
  `some true`; truthiness of an object field is `isSome`.
* The mutable `streamingTextMessage` object reference is modelled as the
  index of the referenced message inside the message list
  (`ChatState.streamingIdx`); in-place mutation of the referenced object
  becomes a functional update of the list at that index.  Indices of
  existing messages are stable because every insertion happens at or
  directly before the end of the list.
* `Date` timestamps are real time and are not modelled; no claim below
  mentions them.
* `getMediaTypeFromMimetype` is imported by the sources from a component
  that classifies mime types; it is passed around here as an opaque
  parameter `mediaOf : String → String`, used identically on both sides of
  every comparison.
* JS `Array.prototype.push` into a result array is rendered as a left fold
  with list append; `Array.prototype.splice(len-1, 0, m)` as
  `take (len-1) ++ [m] ++ drop (len-1)`.
-/

namespace Adk

/-! ## Data model: parts, chunks, messages -/

/-- OAuth2 credential payload (`args.authConfig.exchangedAuthCredential.oauth2`).
`rest` stands for the remaining fields of the JS object, carried opaquely. -/
structure OAuth2Info where
  authUri : Option String := none
  authResponseUri : Option String := none
  redirectUri : Option String := none
  rest : List (String × String) := []
deriving Repr, DecidableEq

/-- `args.authConfig.exchangedAuthCredential`. -/
structure ExchangedAuthCredential where
  oauth2 : Option OAuth2Info := none
  rest : List (String × String) := []
deriving Repr, DecidableEq

/-- `args.authConfig`. -/
structure AuthConfig where
  exchangedAuthCredential : Option ExchangedAuthCredential := none
  rest : List (String × String) := []
deriving Repr, DecidableEq

/-- Arguments object of a function call (`any` in the sources; only the
`authConfig` chain and the synthesized `code` argument are ever inspected,
the rest is carried opaquely). -/
structure FuncArgs where
  authConfig : Option AuthConfig := none
  code : Option String := none
  rest : List (String × String) := []
deriving Repr, DecidableEq

/-- `part.functionCall` (fields optional, as on an untyped JS object). -/
structure FunctionCall where
  id : Option String := none
  name : Option String := none
  args : Option FuncArgs := none
deriving Repr, DecidableEq

/-- Response payload of a function response: either an opaque value, the
synthesized `code_execution` result, or an auth config (OAuth continuation). -/
inductive RespVal where
  | raw (s : String)
  | codeExec (outcome : String) (output : String)
  | auth (cfg : AuthConfig)
deriving Repr, DecidableEq

/-- `part.functionResponse`, and the `function_response` built for the OAuth
continuation request. -/
structure FuncResponse where
  id : Option String := none
  name : Option String := none
  response : Option RespVal := none
deriving Repr, DecidableEq

/-- `part.inlineData` as it arrives in a chunk (raw base64 `data`). -/
structure InlineBlob where
  displayName : Option String := none
  data : String := ""
  mimeType : String := ""
deriving Repr, DecidableEq

/-- `part.executableCode`. -/
structure CodeBlock where
  code : String
deriving Repr, DecidableEq

/-- `part.codeExecutionResult`. -/
structure CodeResult where
  outcome : String
  output : String
deriving Repr, DecidableEq

/-- One `Part` of a chunk or session event: a JS object whose fields are all
optional.  The sources dispatch on JS truthiness of these fields. -/
structure Part where
  text : Option String := none
  thought : Option Bool := none
  functionCall : Option FunctionCall := none
  functionResponse : Option FuncResponse := none
  inlineData : Option InlineBlob := none
  executableCode : Option CodeBlock := none
  codeExecutionResult : Option CodeResult := none
deriving Repr, DecidableEq

/-- JS truthiness of `part.text` (a string: truthy iff present and nonempty). -/
def Part.truthyText (p : Part) : Bool :=
  match p.text with
  | some s => s ≠ ""
  | none => false

/-- JS truthiness of `part.thought`. -/
def Part.truthyThought (p : Part) : Bool :=
  p.thought = some true

/-- `chunkJson.content` (the `parts` array is itself optional). -/
structure ChunkContent where
  parts : Option (List Part) := none
deriving Repr, DecidableEq

/-- One decoded stream frame (`chunkJson`). -/
structure Chunk where
  id : Option String := none
  incomplete : Option Bool := none
  content : Option ChunkContent := none
  error : Option String := none
  renderedContent : Option String := none
deriving Repr, DecidableEq

/-- JS truthiness of `chunkJson.error` (string field). -/
def Chunk.truthyError (c : Chunk) : Bool :=
  match c.error with
  | some s => s ≠ ""
  | none => false

/-- Message role. -/
inductive Role where
  | user
  | bot
deriving Repr, DecidableEq

/-- Resolved inline data stored on a message (`data` is a data URL). -/
structure InlineDataView where
  displayName : Option String := none
  data : String := ""
  mimeType : String := ""
  mediaType : String := ""
deriving Repr, DecidableEq

/-- A `ChatMessage` as both sources define it (timestamps omitted, see the
module comment; `attachments` omitted: no modelled operation touches it). -/
structure ChatMessage where
  role : Role
  text : Option String := none
  isLoading : Option Bool := none
  inlineData : Option InlineDataView := none
  functionCall : Option FunctionCall := none
  functionResponse : Option FuncResponse := none
  thought : Option Bool := none
  eventId : Option String := none
  renderedContent : Option String := none
deriving Repr, DecidableEq

/-- The Assembler's working state: the ordered message list, the streaming
pointer (as an index, see module comment) and the model-thinking flag. -/
structure ChatState where
  messages : List ChatMessage
  streamingIdx : Option Nat
  isModelThinking : Bool
deriving Repr, DecidableEq

/-! ## List helpers -/

/-- Functional update of a list at an index (in-place JS mutation of the
object the streaming pointer references). Out-of-range indices are no-ops. -/
def modifyAt : List α → Nat → (α → α) → List α
  | [], _, _ => []
  | x :: xs, 0, f => f x :: xs
  | x :: xs, n + 1, f => x :: modifyAt xs n f

/-- Plain concatenation of a list of strings (the "ordered concatenation of
all partial fragments" of the spec). -/
def strConcat : List String → String
  | [] => ""
  | t :: ts => t ++ strConcat ts

/-- If `pat` is a prefix of `l`, return the rest of `l` after it. -/
def stripHead : List Char → List Char → Option (List Char)
  | [], l => some l
  | _ :: _, [] => none
  | p :: ps, c :: cs => if p = c then stripHead ps cs else none

/-- Remove the first occurrence of `pat` from `l` (leftmost match). -/
def removeFirstAux (pat : List Char) : List Char → List Char
  | [] => []
  | c :: cs =>
    match stripHead pat (c :: cs) with
    | some rest => rest
    | none => c :: removeFirstAux pat cs

/-- Remove every left-to-right occurrence of `pat` from `l` (structural
recursion on a fuel bound; any `fuel ≥ l.length` gives the full scan for a
nonempty `pat`). -/
def removeAllAux (pat : List Char) : Nat → List Char → List Char
  | 0, l => l
  | _, [] => []
  | fuel + 1, c :: cs =>
    match stripHead pat (c :: cs) with
    | some rest => removeAllAux pat fuel rest
    | none => c :: removeAllAux pat fuel cs

/-- JS `String.prototype.trimEnd`: drop trailing whitespace (modelled over
the ASCII whitespace of `Char.isWhitespace`). -/
def jsTrimEnd (s : String) : String :=
  ⟨(s.data.reverse.dropWhile (fun c => c.isWhitespace)).reverse⟩

/-! ## Insertion primitive (`SimplifiedChatComponent.insertMessageBeforeLoadingMessage`) -/

namespace SC

/-- JS truthiness of `this.messages[this.messages.length - 1]?.isLoading`. -/
def lastIsLoading (msgs : List ChatMessage) : Bool :=
  ((msgs.getLast?.bind (fun m => m.isLoading)).getD false)

/-- `insertMessageBeforeLoadingMessage`: if the last message is a loading
placeholder, `splice(len-1, 0, message)`, else `push(message)`. -/
def insertMessageBeforeLoadingMessage (msgs : List ChatMessage)
    (m : ChatMessage) : List ChatMessage :=
  if lastIsLoading msgs then
    msgs.take (msgs.length - 1) ++ m :: msgs.drop (msgs.length - 1)
  else
    msgs ++ [m]

/-- Index at which `insertMessageBeforeLoadingMessage` places the new
message. -/
def insertPos (msgs : List ChatMessage) : Nat :=
  if lastIsLoading msgs then msgs.length - 1 else msgs.length

end SC

/-! ## Long-running events service (`LongRunningEventsService`) -/

/-- `LongRunningEvent` of long-running-events.service.ts (`name` kept as the
runtime value copied from the part, which may be absent). -/
structure LongRunningEvent where
  id : String
  name : Option String := none
  args : Option FuncArgs := none
  status : Option String := none
deriving Repr, DecidableEq

namespace LRE

/-- `extractAsyncFunctionsFromParts`: loop over `parts`, pushing a `pending`
event for every `functionCall` part whose id is in `pendingIds`
(`pendingIds.includes(part.functionCall.id)` is false when the id is
absent, since `pendingIds` is a string array). -/
def extractAsyncFunctionsFromParts (pendingIds : List String)
    (parts : List Part) : List LongRunningEvent :=
  parts.foldl
    (fun events p =>
      match p.functionCall with
      | some fc =>
        match fc.id with
        | some i =>
          if pendingIds.contains i then
            events ++ [{ id := i, name := fc.name, args := fc.args,
                         status := some "pending" }]
          else events
        | none => events
      | none => events)
    []

/-- `removeFinishedEvents`: drop every tracked event whose id occurs among the
ids of `finishedEvents` (the source builds a `Set` of `obj.id`; membership in
that set is membership of the id list). -/
def removeFinishedEvents (finishedIds : List String)
    (events : List LongRunningEvent) : List LongRunningEvent :=
  events.filter (fun e => !(finishedIds.contains e.id))

/-- The optional chain `args?.authConfig?.exchangedAuthCredential?.oauth2`. -/
def oauthCredential (e : LongRunningEvent) : Option OAuth2Info :=
  ((e.args.bind (fun a => a.authConfig)).bind
      (fun c => c.exchangedAuthCredential)).bind
      (fun x => x.oauth2)

/-- The predicate of `getFirstPendingOAuthEvent` / `hasPendingOAuthEvents`:
status is `'pending'` and `args?.authConfig?.exchangedAuthCredential?.oauth2`
is truthy (every link of the optional chain present). -/
def isPendingOAuth (e : LongRunningEvent) : Bool :=
  e.status = some "pending" && (oauthCredential e).isSome

/-- `getFirstPendingOAuthEvent`: `Array.prototype.find` over the tracked
list. -/
def getFirstPendingOAuthEvent (events : List LongRunningEvent) :
    Option LongRunningEvent :=
  events.find? isPendingOAuth

end LRE

/-! ## Shared message construction helpers -/

/-- `formatBase64Data` (identical private method in both sources): build a
data URL from raw base64 data and a mime type. -/
def formatBase64Data (data mimeType : String) : String :=
  "data:" ++ mimeType ++ ";base64," ++ data

/-- The inline-data message payload both sources build from a part's
`inlineData`, with the opaque mime classifier `mediaOf`. -/
def inlineView (mediaOf : String → String) (b : InlineBlob) : InlineDataView :=
  { displayName := b.displayName,
    data := formatBase64Data b.data b.mimeType,
    mimeType := b.mimeType,
    mediaType := mediaOf b.mimeType }

/-- Insert a message into the state through the shared insertion primitive. -/
def insertState (s : ChatState) (m : ChatMessage) : ChatState :=
  { s with messages := SC.insertMessageBeforeLoadingMessage s.messages m }

/-! ## `SimplifiedChatComponent.processPart` and `processStreamChunk` -/

namespace SC

/-- `SimplifiedChatComponent.processPart`: dispatch on the truthy field of
the part, in source order (`text` / `functionCall` / `functionResponse` /
`inlineData`).  The streaming pointer is the index `s.streamingIdx`. -/
def processPart (mediaOf : String → String) (p : Part) (c : Chunk)
    (s : ChatState) : ChatState :=
  if p.truthyText then
    let t := p.text.getD ""
    let s := { s with isModelThinking := false }
    if p.truthyThought then
      insertState s { role := .bot, text := some t, thought := some true }
    else if c.incomplete = some true then
      match s.streamingIdx with
      | none =>
        let pos := insertPos s.messages
        { s with
          messages := insertMessageBeforeLoadingMessage s.messages
            { role := .bot, text := some t },
          streamingIdx := some pos }
      | some i =>
        { s with
          messages := modifyAt s.messages i
            (fun m => { m with text := some ((m.text.getD "") ++ t) }) }
    else
      match s.streamingIdx with
      | some i =>
        { s with
          messages := modifyAt s.messages i
            (fun m => { m with text := some t }) }
      | none =>
        insertState s { role := .bot, text := some t }
  else if p.functionCall.isSome then
    insertState s { role := .bot, functionCall := p.functionCall }
  else if p.functionResponse.isSome then
    insertState s { role := .bot, functionResponse := p.functionResponse }
  else
    match p.inlineData with
    | some b => insertState s { role := .bot, inlineData := some (inlineView mediaOf b) }
    | none => s

/-- A raw SSE frame as `processStreamChunk` receives it: either it starts
with the literal error prefix, or `JSON.parse` throws, or it parses into a
chunk (whose own `error` field may still be set). -/
inductive RawFrame where
  | errorPrefix (raw : String)
  | malformed (raw : String)
  | chunk (c : Chunk)
deriving Repr, DecidableEq

/-- `SimplifiedChatComponent.processStreamChunk`.  Returns the new state and
the list of snackbar notifications shown (parse failures only log to the
console and surface nothing). -/
def processStreamChunk (mediaOf : String → String) (f : RawFrame)
    (s : ChatState) : ChatState × List String :=
  match f with
  | .errorPrefix raw => (s, [raw])
  | .malformed _ => (s, [])
  | .chunk c =>
    if c.truthyError then (s, [c.error.getD ""])
    else
      match c.content with
      | some content =>
        match content.parts with
        | some ps => (ps.foldl (fun st p => processPart mediaOf p c st) s, [])
        | none => (s, [])
      | none => (s, [])

/-- The per-turn stream loop: each arriving frame is handed to
`processStreamChunk`; a frame never aborts the subscription. -/
def processFrames (mediaOf : String → String) (fs : List RawFrame)
    (s : ChatState) : ChatState :=
  fs.foldl (fun st f => (processStreamChunk mediaOf f st).1) s

end SC

/-! ## `MessageProcessingService` -/

namespace MPS

/-- JS `String.prototype.replace` with a string pattern: replaces only the
first occurrence of `pat` by the empty string. -/
def replaceFirst (s pat : String) : String :=
  ⟨removeFirstAux pat.data s.data⟩

/-- `processThoughtText`: `text.replace('/*PLANNING*/', '').replace('/*ACTION*/', '')`. -/
def processThoughtText (text : String) : String :=
  replaceFirst (replaceFirst text "/*PLANNING*/") "/*ACTION*/"

/-- Result record of `MessageProcessingService.processPart`
(`{streamingTextMessage, latestThought, isModelThinking}`; the streaming
pointer lives inside `state`). -/
structure PartResult where
  state : ChatState
  latestThought : String
  isModelThinking : Bool
deriving Repr, DecidableEq

/-- JS truthiness of
`chunkJson.groundingMetadata?.searchEntryPoint?.renderedContent` (the chain
is flattened into `Chunk.renderedContent`). -/
def renderedOf (c : Chunk) : Option String :=
  match c.renderedContent with
  | some r => if r ≠ "" then some r else none
  | none => none

/-- `MessageProcessingService.processPart`.  The insertion callback the
caller passes is the shared insertion primitive (the only insertion routine
in the repository); dispatch order follows the source's if/else chain,
including the `executableCode` / `codeExecutionResult` synthesis and the
bare-`thought` branch. -/
def processPart (mediaOf : String → String) (p : Part) (c : Chunk)
    (s : ChatState) : PartResult :=
  let rendered := renderedOf c
  if p.truthyText then
    let t := p.text.getD ""
    let s := { s with isModelThinking := false }
    if p.truthyThought then
      { state := insertState s
          { role := .bot, text := some (processThoughtText (jsTrimEnd t)),
            thought := some true, eventId := c.id },
        latestThought := t, isModelThinking := false }
    else if c.incomplete = some true then
      match s.streamingIdx with
      | none =>
        let pos := SC.insertPos s.messages
        { state :=
            { s with
              messages := SC.insertMessageBeforeLoadingMessage s.messages
                { role := .bot, text := some t, eventId := c.id,
                  renderedContent := rendered },
              streamingIdx := some pos },
          latestThought := "", isModelThinking := false }
      | some i =>
        { state :=
            { s with
              messages := modifyAt s.messages i
                (fun m => { m with text := some ((m.text.getD "") ++ t) }) },
          latestThought := "", isModelThinking := false }
    else
      match s.streamingIdx with
      | some i =>
        { state :=
            { s with
              messages := modifyAt s.messages i
                (fun m => { m with text := some (jsTrimEnd t) }) },
          latestThought := "", isModelThinking := false }
      | none =>
        { state := insertState s
            { role := .bot, text := some (jsTrimEnd t), eventId := c.id,
              renderedContent := rendered },
          latestThought := "", isModelThinking := false }
  else if p.functionCall.isSome then
    { state := insertState s
        { role := .bot, functionCall := p.functionCall, eventId := c.id },
      latestThought := "", isModelThinking := false }
  else if p.functionResponse.isSome then
    { state := insertState s
        { role := .bot, functionResponse := p.functionResponse, eventId := c.id },
      latestThought := "", isModelThinking := false }
  else if p.inlineData.isSome then
    { state := insertState s
        { role := .bot,
          inlineData := (p.inlineData.map (inlineView mediaOf)),
          eventId := c.id },
      latestThought := "", isModelThinking := false }
  else if p.executableCode.isSome then
    { state := insertState s
        { role := .bot,
          functionCall := some
            { name := some "code_execution",
              args := some { code := p.executableCode.map (fun e => e.code) } },
          eventId := c.id },
      latestThought := "", isModelThinking := false }
  else if p.codeExecutionResult.isSome then
    { state := insertState s
        { role := .bot,
          functionResponse := some
            { name := some "code_execution",
              response := p.codeExecutionResult.map
                (fun r => RespVal.codeExec r.outcome r.output) },
          eventId := c.id },
      latestThought := "", isModelThinking := false }
  else if p.truthyThought then
    { state := { s with isModelThinking := true },
      latestThought := "", isModelThinking := true }
  else
    { state := s, latestThought := "", isModelThinking := false }

/-- A session history event (`{author, content.parts[], timestamp, id}`;
timestamps are not modelled). -/
structure SessionEvent where
  author : String
  content : Option ChunkContent := none
  id : Option String := none
deriving Repr, DecidableEq

/-- The message `transformSessionEvents` builds for a non-text part. -/
def otherPartMessage (mediaOf : String → String) (e : SessionEvent)
    (p : Part) : ChatMessage :=
  let base : ChatMessage :=
    { role := if e.author = "user" then .user else .bot, eventId := e.id }
  if p.functionCall.isSome then { base with functionCall := p.functionCall }
  else if p.functionResponse.isSome then
    { base with functionResponse := p.functionResponse }
  else
    match p.inlineData with
    | some b => { base with inlineData := some (inlineView mediaOf b) }
    | none => base

/-- The messages `transformSessionEvents` pushes for one event: all truthy
text parts are combined into a single message (joined text, `thought` true
when any text part is a thought), then every non-text part gets its own
message. -/
def eventMessages (mediaOf : String → String) (e : SessionEvent) :
    List ChatMessage :=
  match e.content with
  | none => []
  | some content =>
    match content.parts with
    | none => []
    | some ps =>
      let textParts := ps.filter (fun p => p.truthyText)
      let otherParts := ps.filter (fun p => !p.truthyText)
      let textMsgs : List ChatMessage :=
        if textParts.length > 0 then
          [{ role := if e.author = "user" then .user else .bot,
             text := some (String.join (textParts.map (fun p => p.text.getD ""))),
             thought := some (textParts.any (fun p => p.truthyThought)),
             eventId := e.id }]
        else []
      textMsgs ++ otherParts.map (otherPartMessage mediaOf e)

/-- `MessageProcessingService.transformSessionEvents`. -/
def transformSessionEvents (mediaOf : String → String)
    (events : List SessionEvent) : List ChatMessage :=
  events.foldl (fun msgs e => msgs ++ eventMessages mediaOf e) []

/-- The chunk a replayed history event corresponds to when its parts are fed
through the live-chunk rules (same id and parts; no `partial`, `error` or
grounding fields). -/
def chunkOfEvent (e : SessionEvent) : Chunk :=
  { id := e.id, content := e.content }

/-- Feeding every part of every history event through the live
`processPart` rules, in order, starting from a given state. -/
def replayLive (mediaOf : String → String) (events : List SessionEvent)
    (s : ChatState) : ChatState :=
  events.foldl
    (fun st e =>
      match e.content with
      | some content =>
        match content.parts with
        | some ps =>
          ps.foldl (fun st2 p => (processPart mediaOf p (chunkOfEvent e) st2).state) st
        | none => st
      | none => st)
    s

end MPS

/-- The observable shape of a message as the claims compare it: role, text,
thought flag (JS truthiness) and the functionCall / functionResponse /
inlineData content. -/
structure MsgShape where
  role : Role
  text : Option String
  thought : Bool
  functionCall : Option FunctionCall
  functionResponse : Option FuncResponse
  inlineData : Option InlineDataView
deriving Repr, DecidableEq

/-- Project a message onto its observable shape. -/
def shapeOf (m : ChatMessage) : MsgShape :=
  { role := m.role, text := m.text, thought := m.thought = some true,
    functionCall := m.functionCall, functionResponse := m.functionResponse,
    inlineData := m.inlineData }

/-! ## `OAuthHandlingService` -/

namespace OAuth

/-- An asynchronous occurrence the pending popup promise can observe: a
window message (with its origin and the `authResponseUrl` field of its
payload), or a tick of the close-polling interval that sees the popup
closed.  The single-threaded event loop serializes these. -/
inductive PopupEvent where
  | message (origin : String) (authResponseUrl : Option String)
  | popupClosed
deriving Repr, DecidableEq

/-- Settlement state of the promise returned by `openOAuthPopup`. -/
inductive PromiseState where
  | pending
  | resolved (url : String)
  | rejected (err : String)
deriving Repr, DecidableEq

/-- One observation step of `openOAuthPopup`'s message listener and
close-poller.  A settled promise absorbs further events (a JS promise
settles at most once, and the listener is removed on settlement).  A
pending promise resolves on a same-origin message carrying a truthy
`authResponseUrl`, ignores every other message (`return` /
`console.log('OAuth failed')`), and rejects when the poller observes the
popup closed. -/
def popupStep (selfOrigin : String) (s : PromiseState) (e : PopupEvent) :
    PromiseState :=
  match s with
  | .pending =>
    match e with
    | .message origin url =>
      if origin ≠ selfOrigin then .pending
      else
        match url with
        | some u => if u ≠ "" then .resolved u else .pending
        | none => .pending
    | .popupClosed => .rejected "Popup was closed by user"
  | st => st

/-- The promise's settlement after a sequence of observations, starting
pending (popup successfully opened). -/
def runPopup (selfOrigin : String) (events : List PopupEvent) : PromiseState :=
  events.foldl (popupStep selfOrigin) .pending

/-- A conforming completion signal: same-origin message whose payload
carries a truthy `authResponseUrl`. -/
def conforming (selfOrigin : String) : PopupEvent → Bool
  | .message origin url =>
    origin = selfOrigin &&
      (match url with
       | some u => u ≠ ""
       | none => false)
  | .popupClosed => false

/-- A part of an outbound run request (`newMessage.parts`): user text, user
inline data, or the OAuth continuation's `function_response`. -/
inductive ReqPart where
  | text (t : String)
  | inlineData (b : InlineBlob)
  | functionResponsePart (fr : FuncResponse)
deriving Repr, DecidableEq

/-- `newMessage` of an `AgentRunRequest`. -/
structure NewMessage where
  role : String
  parts : List ReqPart
deriving Repr, DecidableEq

/-- `AgentRunRequest` (AgentRunRequest.ts). -/
structure AgentRunRequest where
  appName : String
  userId : String
  sessionId : String
  newMessage : NewMessage
  streaming : Option Bool := none
  functionCallEventId : Option String := none
deriving Repr, DecidableEq

/-- `sendOAuthResponse`: builds the continuation request.  The source
`structuredClone`s `func.args.authConfig` and mutates only the clone, so the
function's result carries the (possibly rewritten) copy while `func` itself
is returned unchanged.  A missing link of the
`args.authConfig.exchangedAuthCredential.oauth2` chain makes the source
throw a `TypeError`; that is modelled as `none`. -/
def sendOAuthResponse (redirectUri : String) (func : LongRunningEvent)
    (authResponseUrl appName userId sessionId functionCallEventId : String) :
    Option (AgentRunRequest × LongRunningEvent) :=
  match func.args with
  | none => none
  | some args =>
    match args.authConfig with
    | none => none
    | some cfg =>
      match cfg.exchangedAuthCredential with
      | none => none
      | some cred =>
        match cred.oauth2 with
        | none => none
        | some o =>
          let oauth2After : OAuth2Info :=
            { o with authResponseUri := some authResponseUrl,
                     redirectUri := some redirectUri }
          let credAfter : ExchangedAuthCredential :=
            { cred with oauth2 := some oauth2After }
          let authConfig : AuthConfig :=
            { cfg with exchangedAuthCredential := some credAfter }
          some
            ({ appName := appName, userId := userId, sessionId := sessionId,
               newMessage :=
                 { role := "user",
                   parts := [ .functionResponsePart
                     { id := some func.id, name := func.name,
                       response := some (.auth authConfig) } ] },
               functionCallEventId := some functionCallEventId },
             func)

end OAuth

/-! ## Derived definitions used by the theorem statements -/

/-- The pending invocation `extractAsyncFunctionsFromParts` creates from one
part, if any: a `functionCall` part whose id occurs in `pendingIds` yields a
`pending` invocation copying the part's id, name and args. -/
def pendingInvocation (pendingIds : List String) (p : Part) :
    Option LongRunningEvent :=
  match p.functionCall with
  | some fc =>
    match fc.id with
    | some i =>
      if pendingIds.contains i then
        some { id := i, name := fc.name, args := fc.args,
               status := some "pending" }
      else none
    | none => none
  | none => none

/-- Modelled from the claim's words ("all embedded planning/action markers,
however many occurrences, stripped"): remove every occurrence of both
markers, unlike the JS `replace` of the source which replaces only the
first occurrence of each. -/
def stripAllMarkers (text : String) : String :=
  ⟨removeAllAux "/*ACTION*/".data text.data.length
      (removeAllAux "/*PLANNING*/".data text.data.length text.data)⟩

/-- A `partial=true` chunk carrying one non-thought text part. -/
def partialTextChunk (t : String) : Chunk :=
  { incomplete := some true,
    content := some { parts := some [{ text := some t }] } }

/-- A final chunk (no `partial` field) carrying one non-thought text part. -/
def finalTextChunk (t : String) : Chunk :=
  { content := some { parts := some [{ text := some t }] } }

/-- A part both the history transform and the live rules classify into one
of the four shared cases (truthy text, functionCall, functionResponse,
inlineData) — no `executableCode` / `codeExecutionResult` synthesis and no
bare-thought signal, which only the live side handles. -/
def classifiablePart (p : Part) : Bool :=
  p.executableCode = none && p.codeExecutionResult = none &&
    (p.truthyText || p.functionCall.isSome || p.functionResponse.isSome ||
      p.inlineData.isSome)

/-- The text of a truthy text part is untouched by the live normalizations:
no trailing whitespace, and (for a thought part) no planning/action marker
to strip. -/
def textNormalizedPart (p : Part) : Bool :=
  let t := p.text.getD ""
  if p.truthyThought then MPS.processThoughtText (jsTrimEnd t) = t
  else jsTrimEnd t = t

/-- An event on which history replay and live classification agree: not
user-authored, every part classifiable, any truthy text part placed first
(the history transform hoists the combined text message to the front),
at most one truthy text part (the history transform joins several into one
message, the live rules emit one message each), and the text untouched by
the live normalizations. -/
def goodEvent (e : MPS.SessionEvent) : Bool :=
  (e.author ≠ "user") &&
    (match e.content with
     | none => true
     | some content =>
       match content.parts with
       | none => true
       | some ps =>
         match ps with
         | [] => true
         | p0 :: rest =>
           ps.all (fun p => classifiablePart p) &&
             rest.all (fun p => !p.truthyText) &&
             (!p0.truthyText || textNormalizedPart p0))

/-! ## Concrete inputs for witnesses and counterexamples -/

/-- A trivial mime classifier used for concrete evaluations. -/
def mediaOf0 : String → String := fun _ => "media"

/-- The empty assembler state (fresh turn, nothing streamed yet). -/
def emptyState : ChatState := { messages := [], streamingIdx := none, isModelThinking := false }

/-- A plain user message. -/
def sampleUserMsg : ChatMessage := { role := .user, text := some "hi" }

/-- A trailing loading placeholder. -/
def sampleLoadingMsg : ChatMessage := { role := .bot, isLoading := some true }

/-- A plain bot message. -/
def sampleBotMsg : ChatMessage := { role := .bot, text := some "ok" }

/-- A state in the middle of streaming: the first message is the active
streaming message, a loading placeholder trails. -/
def streamingState0 : ChatState :=
  { messages := [{ role := .bot, text := some "Hel" }, sampleLoadingMsg],
    streamingIdx := some 0, isModelThinking := false }

/-- A chunk whose top-level `error` field is set. -/
def errChunk : Chunk := { error := some "boom" }

/-- A final (non-partial) text part. -/
def finalPart0 : Part := { text := some "Hello!" }

/-- A thought text part with two planning markers. -/
def thoughtPart0 : Part :=
  { text := some "/*PLANNING*/a/*PLANNING*/b", thought := some true }

/-- A chunk with no distinguished fields, as context for single parts. -/
def chunk0 : Chunk := {}

/-- A session event with two non-thought text parts: history merges them
into one message, the live rules emit two. -/
def evTwoTexts : MPS.SessionEvent :=
  { author := "bot",
    content := some { parts := some [{ text := some "a" }, { text := some "b" }] } }

/-- A session event history replay and live classification agree on. -/
def evGood : MPS.SessionEvent :=
  { author := "assistant", id := some "e1",
    content := some
      { parts := some [{ text := some "done" },
                       { functionCall := some { id := some "f1", name := some "lookup" } }] } }

/-- The OAuth2 credential of `oauthFunc0`. -/
def oauth0 : OAuth2Info :=
  { authUri := some "https://auth.example/a", rest := [("state", "xyz")] }

/-- The exchanged credential of `oauthFunc0`. -/
def cred0 : ExchangedAuthCredential :=
  { oauth2 := some oauth0, rest := [("kind", "oauth2")] }

/-- The auth config of `oauthFunc0`. -/
def authConfig0 : AuthConfig :=
  { exchangedAuthCredential := some cred0, rest := [("scheme", "s")] }

/-- An OAuth-pending invocation with a full credential chain. -/
def oauthFunc0 : LongRunningEvent :=
  { id := "f1", name := some "lookup",
    args := some { authConfig := some authConfig0 },
    status := some "pending" }

/-- A long-running functionCall part matching pending id `f1`. -/
def fcPart0 : Part :=
  { functionCall := some { id := some "f1", name := some "lookup" } }

/-- A second long-running functionCall part matching pending id `f2`. -/
def fcPart1 : Part :=
  { functionCall := some { id := some "f2", name := some "fetch" } }

/-- A tracked invocation with no OAuth credential. -/
def plainEvent0 : LongRunningEvent := { id := "p0", name := some "plain" }

/-! # Theorems -/

/-! ## List lemmas -/

theorem modifyAt_length (l : List α) (n : Nat) (f : α → α) :
    (modifyAt l n f).length = l.length := by
  induction l generalizing n with
  | nil => rfl
  | cons x xs ih =>
    cases n with
    | zero => rfl
    | succ n => simp [modifyAt, ih]

theorem modifyAt_get?_self (l : List α) (n : Nat) (f : α → α) :
    (modifyAt l n f).get? n = (l.get? n).map f := by
  induction l generalizing n with
  | nil => cases n <;> rfl
  | cons x xs ih =>
    cases n with
    | zero => rfl
    | succ n => simpa [modifyAt] using ih n

theorem modifyAt_get?_ne (l : List α) (n m : Nat) (f : α → α) (h : n ≠ m) :
    (modifyAt l n f).get? m = l.get? m := by
  induction l generalizing n m with
  | nil => cases m <;> rfl
  | cons x xs ih =>
    cases n with
    | zero =>
      cases m with
      | zero => exact absurd rfl h
      | succ m => rfl
    | succ n =>
      cases m with
      | zero => rfl
      | succ m =>
        simpa [modifyAt] using ih n m (fun hnm => h (by simp [hnm]))

theorem get?_append_length (l1 : List α) (a : α) (l2 : List α) :
    (l1 ++ a :: l2).get? l1.length = some a := by
  induction l1 with
  | nil => rfl
  | cons x xs ih => simpa using ih

/-! ## Lemmas about the insertion primitive -/

theorem insert_append_of_not_loading (msgs : List ChatMessage) (m : ChatMessage)
    (h : SC.lastIsLoading msgs = false) :
    SC.insertMessageBeforeLoadingMessage msgs m = msgs ++ [m] := by
  simp [SC.insertMessageBeforeLoadingMessage, h]

theorem lastIsLoading_concat (init : List ChatMessage) (last : ChatMessage) :
    SC.lastIsLoading (init ++ [last]) = last.isLoading.getD false := by
  simp [SC.lastIsLoading]

theorem insert_loading_case (init : List ChatMessage) (last m : ChatMessage)
    (h : last.isLoading = some true) :
    SC.insertMessageBeforeLoadingMessage (init ++ [last]) m = init ++ m :: [last] := by
  have hl : SC.lastIsLoading (init ++ [last]) = true := by
    simp [lastIsLoading_concat, h]
  have hlen : (init ++ [last]).length - 1 = init.length := by simp
  simp only [SC.insertMessageBeforeLoadingMessage, hl, if_pos, hlen]
  rw [List.take_left, List.drop_left]

theorem insert_sublist (msgs : List ChatMessage) (m : ChatMessage) :
    msgs.Sublist (SC.insertMessageBeforeLoadingMessage msgs m) := by
  by_cases h : SC.lastIsLoading msgs
  · simp only [SC.insertMessageBeforeLoadingMessage, h, if_pos]
    conv_lhs => rw [← List.take_append_drop (msgs.length - 1) msgs]
    exact List.Sublist.append_left (List.sublist_cons_self m _) _
  · rw [insert_append_of_not_loading msgs m (by simpa using h)]
    exact List.sublist_append_left msgs [m]

/-! ## C2 -/

/-- C2: the insertion primitive places the new message immediately before
the last element when that element is a loading placeholder, appends it
otherwise, and in both cases the pre-existing messages keep their relative
order (the old list is a sublist of the new one). -/
theorem insertMessageBeforeLoadingMessage_spec (msgs : List ChatMessage)
    (m : ChatMessage) :
    (∀ init last, msgs = init ++ [last] → last.isLoading = some true →
        SC.insertMessageBeforeLoadingMessage msgs m = init ++ m :: [last])
    ∧ (SC.lastIsLoading msgs = false →
        SC.insertMessageBeforeLoadingMessage msgs m = msgs ++ [m])
    ∧ msgs.Sublist (SC.insertMessageBeforeLoadingMessage msgs m) := by
  refine ⟨?_, insert_append_of_not_loading msgs m, insert_sublist msgs m⟩
  rintro init last rfl h
  exact insert_loading_case init last m h

/-- Witness for C2 at a two-message list with a trailing loading
placeholder. -/
theorem insertMessageBeforeLoadingMessage_spec_witness :
    SC.insertMessageBeforeLoadingMessage [sampleUserMsg, sampleLoadingMsg]
        sampleBotMsg
      = [sampleUserMsg] ++ sampleBotMsg :: [sampleLoadingMsg] :=
  (insertMessageBeforeLoadingMessage_spec [sampleUserMsg, sampleLoadingMsg]
      sampleBotMsg).1 [sampleUserMsg] sampleLoadingMsg rfl rfl

/-! ## C5 -/

theorem extract_eq_filterMap (pendingIds : List String) (parts : List Part) :
    LRE.extractAsyncFunctionsFromParts pendingIds parts
      = parts.filterMap (pendingInvocation pendingIds) := by
  have go : ∀ (ps : List Part) (acc : List LongRunningEvent),
      ps.foldl (fun events p =>
        match p.functionCall with
        | some fc =>
          match fc.id with
          | some i =>
            if pendingIds.contains i then
              events ++ [{ id := i, name := fc.name, args := fc.args,
                           status := some "pending" }]
            else events
          | none => events
        | none => events) acc
      = acc ++ ps.filterMap (pendingInvocation pendingIds) := by
    intro ps
    induction ps with
    | nil => intro acc; simp
    | cons p ps ih =>
      intro acc
      simp only [List.foldl_cons, List.filterMap_cons]
      cases hfc : p.functionCall with
      | none =>
        simp only [hfc, pendingInvocation]
        exact ih acc
      | some fc =>
        cases hid : fc.id with
        | none =>
          simp only [hfc, hid, pendingInvocation]
          exact ih acc
        | some i =>
          by_cases hc : pendingIds.contains i = true
          · simp only [hfc, hid, pendingInvocation, if_pos hc]
            rw [ih]
            simp
          · simp only [hfc, hid, pendingInvocation, if_neg hc]
            exact ih acc
  simpa [LRE.extractAsyncFunctionsFromParts] using go parts []

/-- C5: extraction returns exactly one `pending` invocation per
`functionCall` part whose id occurs in `pendingIds`, in part order, copying
the part's id, name and args; removal removes exactly the tracked
invocations whose ids occur in the finished list, is a no-op when no
tracked id occurs there, and is idempotent. -/
theorem extract_and_remove_spec (pendingIds : List String) (parts : List Part)
    (finishedIds : List String) (events : List LongRunningEvent) :
    LRE.extractAsyncFunctionsFromParts pendingIds parts
        = parts.filterMap (pendingInvocation pendingIds)
    ∧ ((∀ e ∈ events, e.id ∉ finishedIds) →
        LRE.removeFinishedEvents finishedIds events = events)
    ∧ LRE.removeFinishedEvents finishedIds
          (LRE.removeFinishedEvents finishedIds events)
        = LRE.removeFinishedEvents finishedIds events
    ∧ ∀ e, e ∈ LRE.removeFinishedEvents finishedIds events ↔
        (e ∈ events ∧ e.id ∉ finishedIds) := by
  refine ⟨extract_eq_filterMap pendingIds parts, ?_, ?_, ?_⟩
  · intro h
    simp only [LRE.removeFinishedEvents]
    rw [List.filter_eq_self]
    intro e he
    simpa using h e he
  · simp only [LRE.removeFinishedEvents]
    rw [List.filter_filter]
    simp
  · intro e
    simp only [LRE.removeFinishedEvents]
    rw [List.mem_filter]
    simp

/-- Witness for C5: two matching functionCall parts give two pending
invocations; removing id `f1` from a list tracking only a non-matching
entry changes nothing. -/
theorem extract_and_remove_spec_witness :
    LRE.extractAsyncFunctionsFromParts ["f1", "f2"] [fcPart0, fcPart1]
        = [fcPart0, fcPart1].filterMap (pendingInvocation ["f1", "f2"])
    ∧ LRE.removeFinishedEvents ["f1"] [plainEvent0] = [plainEvent0] := by
  refine ⟨(extract_and_remove_spec ["f1", "f2"] [fcPart0, fcPart1] ["f1"]
    [plainEvent0]).1, ?_⟩
  exact (extract_and_remove_spec ["f1", "f2"] [fcPart0, fcPart1] ["f1"]
    [plainEvent0]).2.1 (by decide)

/-! ## C6 -/

theorem find?_first {α : Type _} (p : α → Bool) (l : List α) (a : α)
    (h : l.find? p = some a) :
    ∃ l1 l2, l = l1 ++ a :: l2 ∧ ∀ x ∈ l1, p x = false := by
  induction l with
  | nil => simp [List.find?] at h
  | cons x xs ih =>
    by_cases hx : p x
    · rw [List.find?_cons_of_pos _ hx] at h
      obtain rfl : x = a := by simpa using h
      exact ⟨[], xs, rfl, by simp⟩
    · rw [List.find?_cons_of_neg _ hx] at h
      obtain ⟨l1, l2, rfl, hl1⟩ := ih h
      refine ⟨x :: l1, l2, rfl, ?_⟩
      intro y hy
      rcases List.mem_cons.mp hy with rfl | hy
      · simpa using hx
      · exact hl1 y hy

theorem isPendingOAuth_iff (e : LongRunningEvent) :
    LRE.isPendingOAuth e = true ↔
      (e.status = some "pending" ∧ (LRE.oauthCredential e).isSome = true) := by
  simp [LRE.isPendingOAuth]

/-- C6: `getFirstPendingOAuthEvent` returns nothing exactly when no tracked
invocation is both `pending` and carries an `oauth2` credential, and
otherwise returns the first matching entry in tracking order. -/
theorem getFirstPendingOAuthEvent_spec (events : List LongRunningEvent) :
    (LRE.getFirstPendingOAuthEvent events = none ↔
      ∀ e ∈ events,
        ¬ (e.status = some "pending" ∧ (LRE.oauthCredential e).isSome = true))
    ∧ ∀ e, LRE.getFirstPendingOAuthEvent events = some e →
        (e.status = some "pending" ∧ (LRE.oauthCredential e).isSome = true)
        ∧ ∃ l1 l2, events = l1 ++ e :: l2 ∧ ∀ x ∈ l1,
            ¬ (x.status = some "pending" ∧ (LRE.oauthCredential x).isSome = true) := by
  constructor
  · rw [LRE.getFirstPendingOAuthEvent, List.find?_eq_none]
    constructor
    · intro h e he hc
      exact h e he ((isPendingOAuth_iff e).mpr hc)
    · intro h e he hp
      exact h e he ((isPendingOAuth_iff e).mp hp)
  · intro e he
    have hp := List.find?_some he
    refine ⟨(isPendingOAuth_iff e).mp hp, ?_⟩
    obtain ⟨l1, l2, rfl, hl1⟩ := find?_first _ _ _ he
    refine ⟨l1, l2, rfl, ?_⟩
    intro x hx hc
    have hfalse := hl1 x hx
    have : LRE.isPendingOAuth x = true := (isPendingOAuth_iff x).mpr hc
    rw [hfalse] at this
    exact Bool.false_ne_true this

/-- Witness for C6: with a non-OAuth entry first and a pending OAuth entry
second, the OAuth entry is found, is pending with a credential, and the
prefix before it has no match. -/
theorem getFirstPendingOAuthEvent_spec_witness :
    (oauthFunc0.status = some "pending"
      ∧ (LRE.oauthCredential oauthFunc0).isSome = true)
    ∧ ∃ l1 l2, [plainEvent0, oauthFunc0] = l1 ++ oauthFunc0 :: l2 ∧ ∀ x ∈ l1,
        ¬ (x.status = some "pending" ∧ (LRE.oauthCredential x).isSome = true) :=
  (getFirstPendingOAuthEvent_spec [plainEvent0, oauthFunc0]).2 oauthFunc0 (by decide)

/-! ## C7 -/

theorem popupStep_absorb (o : String) (s : OAuth.PromiseState)
    (e : OAuth.PopupEvent) (h : s ≠ .pending) : OAuth.popupStep o s e = s := by
  cases s with
  | pending => exact absurd rfl h
  | resolved u => rfl
  | rejected err => rfl

theorem foldl_popupStep_absorb (o : String) (s : OAuth.PromiseState)
    (l : List OAuth.PopupEvent) (h : s ≠ .pending) :
    l.foldl (OAuth.popupStep o) s = s := by
  induction l with
  | nil => rfl
  | cons e l ih => rw [List.foldl_cons, popupStep_absorb o s e h]; exact ih

theorem popupStep_message_nonconforming (o origin : String) (url : Option String)
    (h : OAuth.conforming o (.message origin url) = false) :
    OAuth.popupStep o .pending (.message origin url) = .pending := by
  by_cases ho : origin = o
  · cases url with
    | none => simp [OAuth.popupStep, ho]
    | some u =>
      have hu : u = "" := by
        by_contra hne
        simp [OAuth.conforming, ho, hne] at h
      subst hu
      simp [OAuth.popupStep, ho]
  · simp [OAuth.popupStep, ho]

theorem runPopup_pending (o : String) (l : List OAuth.PopupEvent)
    (h : ∀ e ∈ l, OAuth.conforming o e = false)
    (hc : OAuth.PopupEvent.popupClosed ∉ l) :
    l.foldl (OAuth.popupStep o) OAuth.PromiseState.pending = .pending := by
  induction l with
  | nil => rfl
  | cons e l ih =>
    have he : OAuth.popupStep o .pending e = .pending := by
      cases e with
      | popupClosed => exact absurd (by simp) hc
      | message origin url =>
        exact popupStep_message_nonconforming o origin url (h _ (by simp))
    rw [List.foldl_cons, he]
    exact ih (fun x hx => h x (by simp [hx])) (fun hx => hc (by simp [hx]))

theorem runPopup_no_conforming (o : String) (l : List OAuth.PopupEvent)
    (h : ∀ e ∈ l, OAuth.conforming o e = false) :
    l.foldl (OAuth.popupStep o) OAuth.PromiseState.pending = .pending ∨
      l.foldl (OAuth.popupStep o) OAuth.PromiseState.pending
        = .rejected "Popup was closed by user" := by
  induction l with
  | nil => left; rfl
  | cons e l ih =>
    cases e with
    | popupClosed =>
      right
      rw [List.foldl_cons]
      exact foldl_popupStep_absorb o _ l (by simp [OAuth.popupStep])
    | message origin url =>
      rw [List.foldl_cons,
        popupStep_message_nonconforming o origin url (h _ (by simp))]
      exact ih (fun x hx => h x (by simp [hx]))

/-- C7: the popup promise never resolves while only non-conforming events
(cross-origin messages, messages without a truthy `authResponseUrl`) arrive;
it resolves with the `authResponseUrl` of the first conforming message; and
a popup-closed observation before any conforming message rejects it with the
user-cancelled error. -/
theorem openOAuthPopup_spec (selfOrigin : String)
    (events : List OAuth.PopupEvent) :
    ((∀ e ∈ events, OAuth.conforming selfOrigin e = false) →
        ∀ u, OAuth.runPopup selfOrigin events ≠ .resolved u)
    ∧ (∀ l1 u rest,
        events = l1 ++ OAuth.PopupEvent.message selfOrigin (some u) :: rest →
        u ≠ "" → (∀ e ∈ l1, OAuth.conforming selfOrigin e = false) →
        OAuth.PopupEvent.popupClosed ∉ l1 →
        OAuth.runPopup selfOrigin events = .resolved u)
    ∧ (∀ l1 rest, events = l1 ++ OAuth.PopupEvent.popupClosed :: rest →
        (∀ e ∈ l1, OAuth.conforming selfOrigin e = false) →
        OAuth.runPopup selfOrigin events
          = .rejected "Popup was closed by user") := by
  refine ⟨?_, ?_, ?_⟩
  · intro h u
    rcases runPopup_no_conforming selfOrigin events h with hs | hs <;>
      simp [OAuth.runPopup, hs]
  · rintro l1 u rest rfl hu h1 hc
    simp only [OAuth.runPopup, List.foldl_append, List.foldl_cons]
    rw [runPopup_pending selfOrigin l1 h1 hc]
    have hstep : OAuth.popupStep selfOrigin .pending
        (.message selfOrigin (some u)) = .resolved u := by
      simp [OAuth.popupStep, hu]
    rw [hstep]
    exact foldl_popupStep_absorb selfOrigin _ rest (by simp)
  · rintro l1 rest rfl h1
    simp only [OAuth.runPopup, List.foldl_append, List.foldl_cons]
    rcases runPopup_no_conforming selfOrigin l1 h1 with hs | hs
    · rw [hs,
        (rfl : OAuth.popupStep selfOrigin .pending .popupClosed
          = .rejected "Popup was closed by user")]
      exact foldl_popupStep_absorb selfOrigin _ rest (by simp [OAuth.popupStep])
    · rw [hs, popupStep_absorb selfOrigin _ _ (by simp)]
      exact foldl_popupStep_absorb selfOrigin _ rest (by simp)

/-- Witness for C7: a cross-origin message is ignored, then a same-origin
message with an `authResponseUrl` resolves the promise with that url. -/
theorem openOAuthPopup_spec_witness :
    OAuth.runPopup "https://app"
        [OAuth.PopupEvent.message "https://evil" (some "x"),
         OAuth.PopupEvent.message "https://app" (some "https://cb?code=1")]
      = .resolved "https://cb?code=1" :=
  (openOAuthPopup_spec "https://app"
      [OAuth.PopupEvent.message "https://evil" (some "x"),
       OAuth.PopupEvent.message "https://app" (some "https://cb?code=1")]).2.1
    [OAuth.PopupEvent.message "https://evil" (some "x")] "https://cb?code=1" []
    rfl (by decide) (by decide) (by decide)

/-! ## C10 -/

/-- C10: `sendOAuthResponse` builds a continuation request with exactly one
`function_response` part carrying the invocation's id and name; the response
payload is a copy of `func.args.authConfig` in which only the oauth2
`authResponseUri` and `redirectUri` are overwritten (all remaining fields of
every level are preserved); and `func` itself is unchanged by the call. -/
theorem sendOAuthResponse_spec
    (redirectUri authResponseUrl appName userId sessionId fcei : String)
    (func : LongRunningEvent) (args : FuncArgs) (cfg : AuthConfig)
    (cred : ExchangedAuthCredential) (o : OAuth2Info)
    (hargs : func.args = some args) (hcfg : args.authConfig = some cfg)
    (hcred : cfg.exchangedAuthCredential = some cred)
    (ho : cred.oauth2 = some o) :
    ∃ req,
      OAuth.sendOAuthResponse redirectUri func authResponseUrl appName userId
          sessionId fcei = some (req, func)
      ∧ req.appName = appName ∧ req.userId = userId
      ∧ req.sessionId = sessionId
      ∧ req.functionCallEventId = some fcei
      ∧ req.newMessage.role = "user"
      ∧ ∃ cfgAfter credAfter oAfter,
          req.newMessage.parts
            = [OAuth.ReqPart.functionResponsePart
                { id := some func.id, name := func.name,
                  response := some (.auth cfgAfter) }]
          ∧ cfgAfter.rest = cfg.rest
          ∧ cfgAfter.exchangedAuthCredential = some credAfter
          ∧ credAfter.rest = cred.rest
          ∧ credAfter.oauth2 = some oAfter
          ∧ oAfter.authResponseUri = some authResponseUrl
          ∧ oAfter.redirectUri = some redirectUri
          ∧ oAfter.authUri = o.authUri
          ∧ oAfter.rest = o.rest := by
  simp only [OAuth.sendOAuthResponse, hargs, hcfg, hcred, ho]
  exact ⟨_, rfl, rfl, rfl, rfl, rfl, rfl,
    _, _, _, rfl, rfl, rfl, rfl, rfl, rfl, rfl, rfl, rfl⟩

/-- Witness for C10 at a concrete invocation with a full credential chain. -/
theorem sendOAuthResponse_spec_witness :
    ∃ req, OAuth.sendOAuthResponse "https://app" oauthFunc0 "https://cb?code=1"
        "demo_app" "user" "sess1" "ev1" = some (req, oauthFunc0) := by
  obtain ⟨req, h, -⟩ := sendOAuthResponse_spec "https://app" "https://cb?code=1"
    "demo_app" "user" "sess1" "ev1" oauthFunc0 { authConfig := some authConfig0 }
    authConfig0 cred0 oauth0 rfl rfl rfl rfl
  exact ⟨req, h⟩

/-! ## C3 -/

/-- C3 (amended): a frame starting with the error literal, a malformed frame
and a chunk whose top-level `error` field is set all leave the whole state
unchanged (message list, streaming pointer, loading placeholder included);
processing any of them first is the same as processing the remaining frames
alone, so the turn is not aborted; the error-literal frame surfaces the raw
frame and the error chunk surfaces its error text as a notification.
Contrary to the claim, a server-reported error chunk does NOT clear the
streaming pointer and does NOT remove the trailing loading placeholder
(those happen only at stream completion / loading-state changes). -/
theorem error_frames_spec (mediaOf : String → String) (raw : String)
    (c : Chunk) (fs : List SC.RawFrame) (s : ChatState)
    (herr : c.truthyError = true) :
    SC.processStreamChunk mediaOf (.malformed raw) s = (s, [])
    ∧ SC.processStreamChunk mediaOf (.errorPrefix raw) s = (s, [raw])
    ∧ SC.processStreamChunk mediaOf (.chunk c) s = (s, [c.error.getD ""])
    ∧ SC.processFrames mediaOf (SC.RawFrame.malformed raw :: fs) s
        = SC.processFrames mediaOf fs s
    ∧ SC.processFrames mediaOf (SC.RawFrame.chunk c :: fs) s
        = SC.processFrames mediaOf fs s := by
  refine ⟨rfl, rfl, ?_, rfl, ?_⟩
  · simp [SC.processStreamChunk, herr]
  · simp [SC.processFrames, SC.processStreamChunk, herr]

/-- Witness for C3 at a concrete error chunk: the state survives untouched
and the error text is surfaced. -/
theorem error_frames_spec_witness :
    SC.processStreamChunk mediaOf0 (.chunk errChunk) streamingState0
      = (streamingState0, [errChunk.error.getD ""]) :=
  (error_frames_spec mediaOf0 "bad" errChunk [] streamingState0 (by decide)).2.2.1

/-- C3 counterexample: at a state with an active streaming pointer and a
trailing loading placeholder, a server-reported error chunk leaves the
pointer set and the placeholder in place, contradicting the claim that it
clears the pointer and removes the placeholder. -/
theorem error_chunk_keeps_streaming_state :
    ¬ ((SC.processStreamChunk mediaOf0 (.chunk errChunk) streamingState0).1.streamingIdx
          = none)
    ∧ SC.lastIsLoading
        ((SC.processStreamChunk mediaOf0 (.chunk errChunk) streamingState0).1.messages)
        = true := by
  constructor
  · decide
  · decide

/-! ## C9 -/

theorem insertState_messages (s : ChatState) (m : ChatMessage) :
    (insertState s m).messages = SC.insertMessageBeforeLoadingMessage s.messages m :=
  rfl

/-- C9 (amended): a thought text part is emitted through the insertion
primitive as its own finalized bot message with `thought=true`, whose text
is the trimmed source text with the FIRST occurrence of each planning/action
marker removed — a repeated occurrence of a marker is retained, because the
JS `replace` with a string pattern replaces once; the streaming pointer and
all previously inserted messages are unchanged. -/
theorem thought_message_spec (mediaOf : String → String) (p : Part) (c : Chunk)
    (s : ChatState) (t : String) (ht : p.text = some t) (htne : t ≠ "")
    (hth : p.thought = some true) :
    (MPS.processPart mediaOf p c s).state.messages
        = SC.insertMessageBeforeLoadingMessage s.messages
            { role := .bot, text := some (MPS.processThoughtText (jsTrimEnd t)),
              thought := some true, eventId := c.id }
    ∧ (MPS.processPart mediaOf p c s).state.streamingIdx = s.streamingIdx
    ∧ s.messages.Sublist (MPS.processPart mediaOf p c s).state.messages
    ∧ (MPS.processPart mediaOf p c s).latestThought = t := by
  have htt : p.truthyText = true := by simp [Part.truthyText, ht, htne]
  have hth' : p.truthyThought = true := by simp [Part.truthyThought, hth]
  have hrun : MPS.processPart mediaOf p c s
      = { state := insertState { s with isModelThinking := false }
            { role := .bot, text := some (MPS.processThoughtText (jsTrimEnd t)),
              thought := some true, eventId := c.id },
          latestThought := t, isModelThinking := false } := by
    simp [MPS.processPart, htt, hth', ht]
  rw [hrun]
  exact ⟨rfl, rfl, insert_sublist s.messages _, rfl⟩

/-- Witness for C9 at a one-marker thought part over a nonempty list with a
trailing loader. -/
theorem thought_message_spec_witness :
    (MPS.processPart mediaOf0
        { text := some "/*PLANNING*/plan", thought := some true } chunk0
        streamingState0).state.streamingIdx = streamingState0.streamingIdx :=
  (thought_message_spec mediaOf0
    { text := some "/*PLANNING*/plan", thought := some true } chunk0
    streamingState0 "/*PLANNING*/plan" rfl (by decide) rfl).2.1

/-- C9 counterexample: a thought text with two planning markers keeps its
second marker (the code strips only the first occurrence), while the claim's
"all occurrences stripped" text would be `"ab"`. -/
theorem thought_marker_strip_counterexample :
    (MPS.processPart mediaOf0 thoughtPart0 chunk0 emptyState).state.messages
        = [{ role := .bot, text := some "a/*PLANNING*/b", thought := some true }]
    ∧ stripAllMarkers "/*PLANNING*/a/*PLANNING*/b" = "ab"
    ∧ some "a/*PLANNING*/b"
        ≠ some (stripAllMarkers "/*PLANNING*/a/*PLANNING*/b") := by
  refine ⟨by decide, ?_, ?_⟩
  · decide
  · decide

/-! ## C8 -/

/-- C8 (amended): a final (non-partial) non-thought text part, with an
active streaming message at index `i`, overwrites that message's text with
the trimmed final text in place — same list length, all other fields of the
message and all other messages untouched, no second message inserted — and
the pointer KEEPS referencing it: contrary to the claim it is not cleared by
this step (it is reset only at stream completion or when a new outbound
message is sent).  With no active streaming message, a new finalized message
carrying the trimmed text is created through the insertion primitive. -/
theorem final_text_spec (mediaOf : String → String) (p : Part) (c : Chunk)
    (s : ChatState) (t : String) (ht : p.text = some t) (htne : t ≠ "")
    (hth : p.truthyThought = false) (hpart : c.incomplete ≠ some true) :
    (∀ i m0, s.streamingIdx = some i → s.messages.get? i = some m0 →
        (MPS.processPart mediaOf p c s).state.streamingIdx = some i
        ∧ (MPS.processPart mediaOf p c s).state.messages.length
            = s.messages.length
        ∧ (MPS.processPart mediaOf p c s).state.messages.get? i
            = some { m0 with text := some (jsTrimEnd t) }
        ∧ ∀ j, j ≠ i →
            (MPS.processPart mediaOf p c s).state.messages.get? j
              = s.messages.get? j)
    ∧ (s.streamingIdx = none →
        (MPS.processPart mediaOf p c s).state.messages
            = SC.insertMessageBeforeLoadingMessage s.messages
                { role := .bot, text := some (jsTrimEnd t), eventId := c.id,
                  renderedContent := MPS.renderedOf c }
          ∧ (MPS.processPart mediaOf p c s).state.streamingIdx = none) := by
  have htt : p.truthyText = true := by simp [Part.truthyText, ht, htne]
  constructor
  · intro i m0 hi hm0
    have hrun : MPS.processPart mediaOf p c s
        = { state :=
              { s with
                isModelThinking := false,
                messages := modifyAt s.messages i
                  (fun m => { m with text := some (jsTrimEnd t) }) },
            latestThought := "", isModelThinking := false } := by
      simp [MPS.processPart, htt, hth, ht, hpart, hi]
    rw [hrun]
    refine ⟨hi, modifyAt_length s.messages i _, ?_, ?_⟩
    · rw [modifyAt_get?_self, hm0]
      rfl
    · intro j hj
      exact modifyAt_get?_ne s.messages i j _ (fun h => hj h.symm)
  · intro hnone
    have hrun : MPS.processPart mediaOf p c s
        = { state := insertState { s with isModelThinking := false }
              { role := .bot, text := some (jsTrimEnd t), eventId := c.id,
                renderedContent := MPS.renderedOf c },
            latestThought := "", isModelThinking := false } := by
      simp [MPS.processPart, htt, hth, ht, hpart, hnone]
    rw [hrun]
    exact ⟨rfl, hnone⟩

/-- Witness for C8 (amended) at the concrete mid-streaming state. -/
theorem final_text_spec_witness :
    (MPS.processPart mediaOf0 finalPart0 chunk0 streamingState0).state.streamingIdx
        = some 0
    ∧ (MPS.processPart mediaOf0 finalPart0 chunk0 streamingState0).state.messages.length
        = streamingState0.messages.length := by
  have h := (final_text_spec mediaOf0 finalPart0 chunk0 streamingState0 "Hello!"
      rfl (by decide) (by decide) (by decide)).1 0
      { role := .bot, text := some "Hel" } rfl rfl
  exact ⟨h.1, h.2.1⟩

/-- C8 counterexample: the claim says the streaming pointer is cleared by a
final text chunk; applied to the concrete mid-streaming state, the pointer
is still set afterwards. -/
theorem final_text_keeps_pointer :
    ¬ ((MPS.processPart mediaOf0 finalPart0 chunk0 streamingState0).state.streamingIdx
        = none) := by
  decide

/-! ## C1 -/

theorem insert_length (msgs : List ChatMessage) (m : ChatMessage) :
    (SC.insertMessageBeforeLoadingMessage msgs m).length = msgs.length + 1 := by
  by_cases h : SC.lastIsLoading msgs
  · have hne : msgs ≠ [] := by
      intro hnil
      rw [hnil] at h
      simp [SC.lastIsLoading] at h
    have hpos : 0 < msgs.length := List.length_pos.mpr hne
    simp only [SC.insertMessageBeforeLoadingMessage, h, if_pos,
      List.length_append, List.length_cons, List.length_take, List.length_drop]
    omega
  · simp [SC.insertMessageBeforeLoadingMessage, h]

theorem insert_get?_pos (msgs : List ChatMessage) (m : ChatMessage) :
    (SC.insertMessageBeforeLoadingMessage msgs m).get? (SC.insertPos msgs)
      = some m := by
  by_cases h : SC.lastIsLoading msgs
  · have hne : msgs ≠ [] := by
      intro hnil
      rw [hnil] at h
      simp [SC.lastIsLoading] at h
    have hpos : 0 < msgs.length := List.length_pos.mpr hne
    have hlen : (msgs.take (msgs.length - 1)).length = msgs.length - 1 := by
      rw [List.length_take]
      omega
    simp only [SC.insertMessageBeforeLoadingMessage, SC.insertPos, h, if_pos]
    have hgoal := get?_append_length (msgs.take (msgs.length - 1)) m
      (msgs.drop (msgs.length - 1))
    rwa [hlen] at hgoal
  · have h' : SC.lastIsLoading msgs = false := by simpa using h
    rw [insert_append_of_not_loading msgs m h']
    have hp : SC.insertPos msgs = msgs.length := by simp [SC.insertPos, h']
    rw [hp]
    exact get?_append_length msgs m []

theorem processFrames_cons (mediaOf : String → String) (f : SC.RawFrame)
    (fs : List SC.RawFrame) (s : ChatState) :
    SC.processFrames mediaOf (f :: fs) s
      = SC.processFrames mediaOf fs (SC.processStreamChunk mediaOf f s).1 := by
  simp [SC.processFrames]

theorem processFrames_append (mediaOf : String → String)
    (fs1 fs2 : List SC.RawFrame) (s : ChatState) :
    SC.processFrames mediaOf (fs1 ++ fs2) s
      = SC.processFrames mediaOf fs2 (SC.processFrames mediaOf fs1 s) := by
  simp [SC.processFrames, List.foldl_append]

theorem processFrames_singleton (mediaOf : String → String) (f : SC.RawFrame)
    (s : ChatState) :
    SC.processFrames mediaOf [f] s = (SC.processStreamChunk mediaOf f s).1 := rfl

theorem sc_frame_partial (mediaOf : String → String) (t : String)
    (s : ChatState) :
    (SC.processStreamChunk mediaOf (.chunk (partialTextChunk t)) s).1
      = SC.processPart mediaOf { text := some t } (partialTextChunk t) s := rfl

theorem sc_frame_final (mediaOf : String → String) (t : String)
    (s : ChatState) :
    (SC.processStreamChunk mediaOf (.chunk (finalTextChunk t)) s).1
      = SC.processPart mediaOf { text := some t } (finalTextChunk t) s := rfl

theorem sc_partial_create (mediaOf : String → String) (p : Part) (c : Chunk)
    (t : String) (ht : p.text = some t) (htne : t ≠ "")
    (hth : p.truthyThought = false) (hc : c.incomplete = some true)
    (s : ChatState) (h0 : s.streamingIdx = none) :
    SC.processPart mediaOf p c s
      = { messages := SC.insertMessageBeforeLoadingMessage s.messages
            { role := .bot, text := some t },
          streamingIdx := some (SC.insertPos s.messages),
          isModelThinking := false } := by
  have htt : p.truthyText = true := by simp [Part.truthyText, ht, htne]
  obtain ⟨msgs, idx, think⟩ := s
  simp only at h0
  subst h0
  simp [SC.processPart, htt, hth, ht, hc]

theorem sc_partial_append (mediaOf : String → String) (p : Part) (c : Chunk)
    (t : String) (ht : p.text = some t) (htne : t ≠ "")
    (hth : p.truthyThought = false) (hc : c.incomplete = some true)
    (s : ChatState) (i : Nat) (hi : s.streamingIdx = some i) :
    SC.processPart mediaOf p c s
      = { messages := modifyAt s.messages i
            (fun m => { m with text := some ((m.text.getD "") ++ t) }),
          streamingIdx := some i, isModelThinking := false } := by
  have htt : p.truthyText = true := by simp [Part.truthyText, ht, htne]
  obtain ⟨msgs, idx, think⟩ := s
  simp only at hi
  subst hi
  simp [SC.processPart, htt, hth, ht, hc]

theorem sc_final_overwrite (mediaOf : String → String) (p : Part) (c : Chunk)
    (t : String) (ht : p.text = some t) (htne : t ≠ "")
    (hth : p.truthyThought = false) (hc : c.incomplete ≠ some true)
    (s : ChatState) (i : Nat) (hi : s.streamingIdx = some i) :
    SC.processPart mediaOf p c s
      = { messages := modifyAt s.messages i
            (fun m => { m with text := some t }),
          streamingIdx := some i, isModelThinking := false } := by
  have htt : p.truthyText = true := by simp [Part.truthyText, ht, htne]
  obtain ⟨msgs, idx, think⟩ := s
  simp only at hi
  subst hi
  simp [SC.processPart, htt, hth, ht, hc]

/-- After further partial fragments, the streaming message accumulates their
concatenation; the pointer and the list length are stable. -/
theorem sc_partials_fold (mediaOf : String → String) (ts : List String)
    (hts : ∀ t ∈ ts, t ≠ "") (s : ChatState) (k : Nat) (u : String)
    (m0 : ChatMessage) (hk : s.streamingIdx = some k)
    (hm : s.messages.get? k = some m0) (hmt : m0.text = some u) :
    ∃ m1,
      (SC.processFrames mediaOf
          (ts.map (fun t => SC.RawFrame.chunk (partialTextChunk t))) s).streamingIdx
          = some k
      ∧ (SC.processFrames mediaOf
          (ts.map (fun t => SC.RawFrame.chunk (partialTextChunk t))) s).messages.get? k
          = some m1
      ∧ m1.text = some (u ++ strConcat ts)
      ∧ (SC.processFrames mediaOf
          (ts.map (fun t => SC.RawFrame.chunk (partialTextChunk t))) s).messages.length
          = s.messages.length := by
  induction ts generalizing s m0 u with
  | nil =>
    refine ⟨m0, hk, hm, ?_, rfl⟩
    simp [strConcat, hmt]
  | cons t ts ih =>
    have htne : t ≠ "" := hts t (by simp)
    have hstep := sc_partial_append mediaOf { text := some t }
      (partialTextChunk t) t rfl htne rfl rfl s k hk
    rw [List.map_cons, processFrames_cons, sc_frame_partial, hstep]
    have hm1 : (modifyAt s.messages k
        (fun m => { m with text := some ((m.text.getD "") ++ t) })).get? k
        = some { m0 with text := some (u ++ t) } := by
      rw [modifyAt_get?_self, hm]
      simp [hmt]
    obtain ⟨m1, h1, h2, h3, h4⟩ := ih (fun x hx => hts x (by simp [hx]))
      { messages := modifyAt s.messages k
          (fun m => { m with text := some ((m.text.getD "") ++ t) }),
        streamingIdx := some k, isModelThinking := false }
      (u ++ t) { m0 with text := some (u ++ t) } rfl hm1 rfl
    refine ⟨m1, h1, h2, ?_, ?_⟩
    · rw [h3, String.append_assoc]
      rfl
    · rw [h4]
      simp [modifyAt_length]

/-- C1: over the non-thought text chunks of a turn, the first `partial=true`
chunk creates and inserts the streaming message (list grows by exactly one),
every later partial appends, so that after any partial-only run the
streaming message's text is the ordered concatenation of all fragments so
far (instantiate `ts` with any prefix), and a following `partial=false`
chunk replaces the accumulated text with exactly the final chunk's text,
adding no further message.  Proved of `SimplifiedChatComponent.processPart`,
which performs the exact replacement. -/
theorem streaming_partials_concat_final_replaces (mediaOf : String → String)
    (s0 : ChatState) (h0 : s0.streamingIdx = none) (t0 : String)
    (ts : List String) (fin : String) (ht0 : t0 ≠ "")
    (hts : ∀ t ∈ ts, t ≠ "") (hfin : fin ≠ "") :
    ∃ k m1 m2,
      (SC.processFrames mediaOf
          ((t0 :: ts).map (fun t => SC.RawFrame.chunk (partialTextChunk t))) s0).streamingIdx
          = some k
      ∧ (SC.processFrames mediaOf
          ((t0 :: ts).map (fun t => SC.RawFrame.chunk (partialTextChunk t))) s0).messages.get? k
          = some m1
      ∧ m1.text = some (strConcat (t0 :: ts))
      ∧ (SC.processFrames mediaOf
          ((t0 :: ts).map (fun t => SC.RawFrame.chunk (partialTextChunk t))) s0).messages.length
          = s0.messages.length + 1
      ∧ (SC.processFrames mediaOf
          ((t0 :: ts).map (fun t => SC.RawFrame.chunk (partialTextChunk t))
            ++ [SC.RawFrame.chunk (finalTextChunk fin)]) s0).messages.get? k
          = some m2
      ∧ m2.text = some fin
      ∧ (SC.processFrames mediaOf
          ((t0 :: ts).map (fun t => SC.RawFrame.chunk (partialTextChunk t))
            ++ [SC.RawFrame.chunk (finalTextChunk fin)]) s0).messages.length
          = s0.messages.length + 1 := by
  have hcreate := sc_partial_create mediaOf { text := some t0 }
    (partialTextChunk t0) t0 rfl ht0 rfl rfl s0 h0
  set s1 : ChatState :=
    { messages := SC.insertMessageBeforeLoadingMessage s0.messages
        { role := .bot, text := some t0 },
      streamingIdx := some (SC.insertPos s0.messages),
      isModelThinking := false } with hs1
  have hstep1 : SC.processFrames mediaOf
      ((t0 :: ts).map (fun t => SC.RawFrame.chunk (partialTextChunk t))) s0
      = SC.processFrames mediaOf
          (ts.map (fun t => SC.RawFrame.chunk (partialTextChunk t))) s1 := by
    rw [List.map_cons, processFrames_cons, sc_frame_partial, hcreate]
  obtain ⟨m1, h1, h2, h3, h4⟩ := sc_partials_fold mediaOf ts hts s1
    (SC.insertPos s0.messages) t0 { role := .bot, text := some t0 } rfl
    (insert_get?_pos s0.messages _) rfl
  have hlen1 : s1.messages.length = s0.messages.length + 1 :=
    insert_length s0.messages _
  have hfinal := sc_final_overwrite mediaOf { text := some fin }
    (finalTextChunk fin) fin rfl hfin rfl (by simp [finalTextChunk])
    (SC.processFrames mediaOf
      (ts.map (fun t => SC.RawFrame.chunk (partialTextChunk t))) s1)
    (SC.insertPos s0.messages) h1
  refine ⟨SC.insertPos s0.messages, m1, { m1 with text := some fin },
    ?_, ?_, ?_, ?_, ?_, rfl, ?_⟩
  · rw [hstep1]
    exact h1
  · rw [hstep1]
    exact h2
  · rw [h3]
    rfl
  · rw [hstep1, h4, hlen1]
  · rw [processFrames_append, hstep1, processFrames_singleton,
      sc_frame_final, hfinal]
    simp only
    rw [modifyAt_get?_self, h2]
    rfl
  · rw [processFrames_append, hstep1, processFrames_singleton,
      sc_frame_final, hfinal]
    simp only
    rw [modifyAt_length, h4, hlen1]

/-- Witness for C1: `["Hel", "lo"]` partials followed by final `"Hello!"`
give a single bot message whose text ends as exactly `"Hello!"`. -/
theorem streaming_partials_concat_final_replaces_witness :
    ∃ k m1 m2,
      (SC.processFrames mediaOf0
          (["Hel", "lo"].map (fun t => SC.RawFrame.chunk (partialTextChunk t))) emptyState).streamingIdx
          = some k
      ∧ (SC.processFrames mediaOf0
          (["Hel", "lo"].map (fun t => SC.RawFrame.chunk (partialTextChunk t))) emptyState).messages.get? k
          = some m1
      ∧ m1.text = some (strConcat ["Hel", "lo"])
      ∧ (SC.processFrames mediaOf0
          (["Hel", "lo"].map (fun t => SC.RawFrame.chunk (partialTextChunk t))) emptyState).messages.length
          = emptyState.messages.length + 1
      ∧ (SC.processFrames mediaOf0
          (["Hel", "lo"].map (fun t => SC.RawFrame.chunk (partialTextChunk t))
            ++ [SC.RawFrame.chunk (finalTextChunk "Hello!")]) emptyState).messages.get? k
          = some m2
      ∧ m2.text = some "Hello!"
      ∧ (SC.processFrames mediaOf0
          (["Hel", "lo"].map (fun t => SC.RawFrame.chunk (partialTextChunk t))
            ++ [SC.RawFrame.chunk (finalTextChunk "Hello!")]) emptyState).messages.length
          = emptyState.messages.length + 1 :=
  streaming_partials_concat_final_replaces mediaOf0 emptyState rfl "Hel" ["lo"]
    "Hello!" (by decide) (by decide) (by decide)

/-! ## C4 -/

theorem truthyText_iff (p : Part) :
    p.truthyText = true ↔ ∃ t, p.text = some t ∧ t ≠ "" := by
  cases h : p.text <;> simp [Part.truthyText, h]

theorem join_singleton (t : String) : String.join [t] = t := by
  simp [String.join]

theorem transform_eq_flatMap (mediaOf : String → String)
    (events : List MPS.SessionEvent) :
    MPS.transformSessionEvents mediaOf events
      = events.flatMap (MPS.eventMessages mediaOf) := by
  have go : ∀ (l : List MPS.SessionEvent) (acc : List ChatMessage),
      l.foldl (fun msgs e => msgs ++ MPS.eventMessages mediaOf e) acc
        = acc ++ l.flatMap (MPS.eventMessages mediaOf) := by
    intro l
    induction l with
    | nil => intro acc; simp
    | cons e l ih => intro acc; simp [ih]
  simpa [MPS.transformSessionEvents] using go events []

theorem otherPartMessage_isLoading (mediaOf : String → String)
    (e : MPS.SessionEvent) (p : Part) :
    (MPS.otherPartMessage mediaOf e p).isLoading = none := by
  rcases hfc : p.functionCall with _ | fc <;>
    rcases hfr : p.functionResponse with _ | fr <;>
      rcases hid : p.inlineData with _ | b <;>
        simp [MPS.otherPartMessage, hfc, hfr, hid]

/-- The live step on a classifiable non-text part inserts exactly the
message the history transform builds for it. -/
theorem mps_other_step (mediaOf : String → String) (e : MPS.SessionEvent)
    (p : Part) (hnt : p.truthyText = false) (hcl : classifiablePart p = true)
    (hau : e.author ≠ "user") (s : ChatState) :
    (MPS.processPart mediaOf p (MPS.chunkOfEvent e) s).state
      = insertState s (MPS.otherPartMessage mediaOf e p) := by
  rcases hfc : p.functionCall with _ | fc
  · rcases hfr : p.functionResponse with _ | fr
    · rcases hid : p.inlineData with _ | b
      · exfalso
        simp [classifiablePart, hnt, hfc, hfr, hid] at hcl
      · simp [MPS.processPart, MPS.otherPartMessage, hnt, hfc, hfr, hid,
          MPS.chunkOfEvent, hau]
    · simp [MPS.processPart, MPS.otherPartMessage, hnt, hfc, hfr,
        MPS.chunkOfEvent, hau]
  · simp [MPS.processPart, MPS.otherPartMessage, hnt, hfc,
      MPS.chunkOfEvent, hau]

/-- The live step on a thought text part (replayed from history: no
`partial` flag, no grounding). -/
theorem mps_thought_step (mediaOf : String → String) (c : Chunk) (p : Part)
    (t : String) (ht : p.text = some t) (htne : t ≠ "")
    (hth : p.truthyThought = true) (s : ChatState) :
    (MPS.processPart mediaOf p c s).state
      = insertState { s with isModelThinking := false }
          { role := .bot, text := some (MPS.processThoughtText (jsTrimEnd t)),
            thought := some true, eventId := c.id } := by
  have htt : p.truthyText = true := by simp [Part.truthyText, ht, htne]
  simp [MPS.processPart, htt, hth, ht]

/-- The live step on a final non-thought text part with no active streaming
pointer. -/
theorem mps_final_none_step (mediaOf : String → String) (c : Chunk) (p : Part)
    (t : String) (ht : p.text = some t) (htne : t ≠ "")
    (hth : p.truthyThought = false) (hc : c.incomplete ≠ some true)
    (s : ChatState) (h0 : s.streamingIdx = none) :
    (MPS.processPart mediaOf p c s).state
      = insertState { s with isModelThinking := false }
          { role := .bot, text := some (jsTrimEnd t), eventId := c.id,
            renderedContent := MPS.renderedOf c } := by
  have htt : p.truthyText = true := by simp [Part.truthyText, ht, htne]
  simp [MPS.processPart, htt, hth, ht, hc, h0]

/-- Folding the live rules over classifiable non-text parts appends exactly
the history transform's messages for them, keeping everything else. -/
theorem live_rest_fold (mediaOf : String → String) (e : MPS.SessionEvent)
    (ps : List Part)
    (hps : ∀ p ∈ ps, p.truthyText = false ∧ classifiablePart p = true)
    (hau : e.author ≠ "user") (s : ChatState)
    (hnl : SC.lastIsLoading s.messages = false) :
    ps.foldl (fun st p => (MPS.processPart mediaOf p (MPS.chunkOfEvent e) st).state) s
        = { s with messages := s.messages ++ ps.map (MPS.otherPartMessage mediaOf e) }
      ∧ SC.lastIsLoading
          (s.messages ++ ps.map (MPS.otherPartMessage mediaOf e)) = false := by
  induction ps generalizing s with
  | nil =>
    refine ⟨?_, by simpa using hnl⟩
    obtain ⟨msgs, idx, think⟩ := s
    simp
  | cons p ps ih =>
    obtain ⟨hnt, hcl⟩ := hps p (by simp)
    have hstep := mps_other_step mediaOf e p hnt hcl hau s
    have hins : insertState s (MPS.otherPartMessage mediaOf e p)
        = { s with messages := s.messages ++ [MPS.otherPartMessage mediaOf e p] } := by
      simp [insertState, insert_append_of_not_loading _ _ hnl]
    have hnl' : SC.lastIsLoading
        (s.messages ++ [MPS.otherPartMessage mediaOf e p]) = false := by
      rw [lastIsLoading_concat, otherPartMessage_isLoading]
      rfl
    rw [List.foldl_cons, hstep, hins]
    obtain ⟨ha, hb⟩ := ih (fun x hx => hps x (by simp [hx]))
      { s with messages := s.messages ++ [MPS.otherPartMessage mediaOf e p] } hnl'
    refine ⟨?_, ?_⟩
    · rw [ha]
      simp
    · simpa using hb

theorem replayLive_single_none (mediaOf : String → String)
    (e : MPS.SessionEvent) (s : ChatState) (hc : e.content = none) :
    MPS.replayLive mediaOf [e] s = s := by
  simp [MPS.replayLive, hc]

theorem replayLive_single_noparts (mediaOf : String → String)
    (e : MPS.SessionEvent) (content : ChunkContent) (s : ChatState)
    (hc : e.content = some content) (hp : content.parts = none) :
    MPS.replayLive mediaOf [e] s = s := by
  simp [MPS.replayLive, hc, hp]

theorem replayLive_single (mediaOf : String → String) (e : MPS.SessionEvent)
    (content : ChunkContent) (ps : List Part) (s : ChatState)
    (hc : e.content = some content) (hp : content.parts = some ps) :
    MPS.replayLive mediaOf [e] s
      = ps.foldl (fun st p => (MPS.processPart mediaOf p (MPS.chunkOfEvent e) st).state) s := by
  simp [MPS.replayLive, hc, hp]

theorem insertState_nl (msgs : List ChatMessage) (idx : Option Nat) (b : Bool)
    (m : ChatMessage) (hnl : SC.lastIsLoading msgs = false) :
    insertState (ChatState.mk msgs idx b) m = ChatState.mk (msgs ++ [m]) idx b := by
  simp [insertState, insert_append_of_not_loading _ _ hnl]

theorem lastIsLoading_append_none (msgs : List ChatMessage) (m : ChatMessage)
    (hm : m.isLoading = none) : SC.lastIsLoading (msgs ++ [m]) = false := by
  rw [lastIsLoading_concat, hm]
  rfl

theorem eventMessages_single_text (mediaOf : String → String)
    (e : MPS.SessionEvent) (content : ChunkContent) (p0 : Part)
    (rest : List Part) (hc : e.content = some content)
    (hp : content.parts = some (p0 :: rest)) (hp0 : p0.truthyText = true)
    (hrest : ∀ p ∈ rest, p.truthyText = false) (t : String)
    (ht : p0.text = some t) :
    MPS.eventMessages mediaOf e
      = { role := if e.author = "user" then Role.user else Role.bot,
          text := some t, thought := some p0.truthyThought, eventId := e.id }
        :: rest.map (MPS.otherPartMessage mediaOf e) := by
  simp only [MPS.eventMessages, hc, hp]
  have hr1 : rest.filter (fun p => p.truthyText) = [] :=
    List.filter_eq_nil_iff.mpr (fun p hpmem => by simp [hrest p hpmem])
  have hr2 : rest.filter (fun p => !p.truthyText) = rest :=
    List.filter_eq_self.mpr (fun p hpmem => by simp [hrest p hpmem])
  have h1 : (p0 :: rest).filter (fun p => p.truthyText) = [p0] := by
    rw [List.filter_cons_of_pos hp0, hr1]
  have h2 : (p0 :: rest).filter (fun p => !p.truthyText) = rest := by
    rw [List.filter_cons_of_neg (by simp [hp0]), hr2]
  rw [h1, h2]
  simp [join_singleton, ht]

theorem eventMessages_no_text (mediaOf : String → String)
    (e : MPS.SessionEvent) (content : ChunkContent) (ps : List Part)
    (hc : e.content = some content) (hp : content.parts = some ps)
    (hall : ∀ p ∈ ps, p.truthyText = false) :
    MPS.eventMessages mediaOf e = ps.map (MPS.otherPartMessage mediaOf e) := by
  simp only [MPS.eventMessages, hc, hp]
  have h1 : ps.filter (fun p => p.truthyText) = [] :=
    List.filter_eq_nil_iff.mpr (fun p hpmem => by simp [hall p hpmem])
  have h2 : ps.filter (fun p => !p.truthyText) = ps :=
    List.filter_eq_self.mpr (fun p hpmem => by simp [hall p hpmem])
  rw [h1, h2]
  simp

/-- One good history event, replayed through the live rules, appends a block
of messages whose shapes are exactly those of the history transform, keeps
the pointer clear, and leaves no trailing loader. -/
theorem live_event_fold (mediaOf : String → String) (e : MPS.SessionEvent)
    (hgood : goodEvent e = true) (s : ChatState) (h0 : s.streamingIdx = none)
    (hnl : SC.lastIsLoading s.messages = false) :
    ∃ delta think2,
      MPS.replayLive mediaOf [e] s
        = { messages := s.messages ++ delta, streamingIdx := none,
            isModelThinking := think2 }
      ∧ delta.map shapeOf = (MPS.eventMessages mediaOf e).map shapeOf
      ∧ SC.lastIsLoading (s.messages ++ delta) = false := by
  have hau : e.author ≠ "user" := by
    simp only [goodEvent, Bool.and_eq_true, decide_eq_true_eq, ne_eq] at hgood
    exact hgood.1
  cases hc : e.content with
  | none =>
    refine ⟨[], s.isModelThinking, ?_, by simp [MPS.eventMessages, hc],
      by simpa using hnl⟩
    rw [replayLive_single_none mediaOf e s hc]
    obtain ⟨msgs, idx, think⟩ := s
    simp only at h0
    subst h0
    simp
  | some content =>
    cases hp : content.parts with
    | none =>
      refine ⟨[], s.isModelThinking, ?_,
        by simp [MPS.eventMessages, hc, hp], by simpa using hnl⟩
      rw [replayLive_single_noparts mediaOf e content s hc hp]
      obtain ⟨msgs, idx, think⟩ := s
      simp only at h0
      subst h0
      simp
    | some ps =>
      rw [replayLive_single mediaOf e content ps s hc hp]
      cases ps with
      | nil =>
        refine ⟨[], s.isModelThinking, ?_, by simp [MPS.eventMessages, hc, hp],
          by simpa using hnl⟩
        obtain ⟨msgs, idx, think⟩ := s
        simp only at h0
        subst h0
        simp
      | cons p0 rest =>
        have hgood' := hgood
        simp only [goodEvent, hc, hp, Bool.and_eq_true, decide_eq_true_eq,
          List.all_eq_true, Bool.or_eq_true, Bool.not_eq_true'] at hgood'
        obtain ⟨-, ⟨hall, hrest⟩, hlast⟩ := hgood'
        obtain ⟨msgs, idx, think⟩ := s
        simp only at h0 hnl
        subst h0
        by_cases hp0 : p0.truthyText = true
        · obtain ⟨t, ht, htne⟩ := (truthyText_iff p0).mp hp0
          have hnorm : textNormalizedPart p0 = true := by
            rcases hlast with hfalse | hnorm
            · exact absurd hp0 (by simp [hfalse])
            · exact hnorm
          have hms := eventMessages_single_text mediaOf e content p0 rest hc hp
            hp0 hrest t ht
          have hps : ∀ p ∈ rest, p.truthyText = false ∧ classifiablePart p = true :=
            fun p hpm => ⟨hrest p hpm, hall p (List.mem_cons_of_mem _ hpm)⟩
          by_cases hth : p0.truthyThought = true
          · have hnorm' : MPS.processThoughtText (jsTrimEnd t) = t := by
              simp only [textNormalizedPart, ht, hth] at hnorm
              simpa using hnorm
            simp only [List.foldl_cons]
            rw [mps_thought_step mediaOf (MPS.chunkOfEvent e) p0 t ht htne hth
                ⟨msgs, none, think⟩,
              insertState_nl msgs none false _ hnl]
            obtain ⟨ha, hb⟩ := live_rest_fold mediaOf e rest hps hau
              (ChatState.mk
                (msgs ++
                  [{ role := .bot,
                     text := some (MPS.processThoughtText (jsTrimEnd t)),
                     thought := some true,
                     eventId := (MPS.chunkOfEvent e).id }])
                none false)
              (lastIsLoading_append_none msgs _ rfl)
            refine ⟨{ role := .bot,
                      text := some (MPS.processThoughtText (jsTrimEnd t)),
                      thought := some true,
                      eventId := (MPS.chunkOfEvent e).id }
                :: rest.map (MPS.otherPartMessage mediaOf e), false, ?_, ?_, ?_⟩
            · rw [ha]
              simp
            · rw [hms]
              simp [shapeOf, hau, hnorm', hth, MPS.chunkOfEvent]
            · simpa using hb
          · have htf : p0.truthyThought = false := by simpa using hth
            have hnorm' : jsTrimEnd t = t := by
              simp only [textNormalizedPart, ht, htf] at hnorm
              simpa using hnorm
            simp only [List.foldl_cons]
            rw [mps_final_none_step mediaOf (MPS.chunkOfEvent e) p0 t ht htne htf
                (by simp [MPS.chunkOfEvent]) ⟨msgs, none, think⟩ rfl,
              insertState_nl msgs none false _ hnl]
            obtain ⟨ha, hb⟩ := live_rest_fold mediaOf e rest hps hau
              (ChatState.mk
                (msgs ++
                  [{ role := .bot,
                     text := some (jsTrimEnd t),
                     eventId := (MPS.chunkOfEvent e).id,
                     renderedContent := MPS.renderedOf (MPS.chunkOfEvent e) }])
                none false)
              (lastIsLoading_append_none msgs _ rfl)
            refine ⟨{ role := .bot,
                      text := some (jsTrimEnd t),
                      eventId := (MPS.chunkOfEvent e).id,
                      renderedContent := MPS.renderedOf (MPS.chunkOfEvent e) }
                :: rest.map (MPS.otherPartMessage mediaOf e), false, ?_, ?_, ?_⟩
            · rw [ha]
              simp
            · rw [hms]
              simp [shapeOf, hau, hnorm', htf, MPS.chunkOfEvent, MPS.renderedOf]
            · simpa using hb
        · have htf0 : p0.truthyText = false := by simpa using hp0
          have hps : ∀ p ∈ p0 :: rest,
              p.truthyText = false ∧ classifiablePart p = true := by
            intro p hpm
            rcases List.mem_cons.mp hpm with rfl | hpm
            · exact ⟨htf0, hall p (by simp)⟩
            · exact ⟨hrest p hpm, hall p (List.mem_cons_of_mem _ hpm)⟩
          obtain ⟨ha, hb⟩ := live_rest_fold mediaOf e (p0 :: rest) hps hau
            ⟨msgs, none, think⟩ hnl
          refine ⟨(p0 :: rest).map (MPS.otherPartMessage mediaOf e), think,
            ?_, ?_, ?_⟩
          · rw [ha]
          · rw [eventMessages_no_text mediaOf e content (p0 :: rest) hc hp
              (fun p hpm => (hps p hpm).1)]
          · exact hb

theorem replayLive_cons (mediaOf : String → String) (e : MPS.SessionEvent)
    (es : List MPS.SessionEvent) (s : ChatState) :
    MPS.replayLive mediaOf (e :: es) s
      = MPS.replayLive mediaOf es (MPS.replayLive mediaOf [e] s) := rfl

/-- Replaying any list of good events through the live rules appends a block
of messages whose shapes are those of the history transform. -/
theorem replay_refines (mediaOf : String → String)
    (events : List MPS.SessionEvent)
    (hgood : ∀ e ∈ events, goodEvent e = true) (s : ChatState)
    (h0 : s.streamingIdx = none) (hnl : SC.lastIsLoading s.messages = false) :
    ∃ delta think2,
      MPS.replayLive mediaOf events s
        = { messages := s.messages ++ delta, streamingIdx := none,
            isModelThinking := think2 }
      ∧ delta.map shapeOf
          = (events.flatMap (MPS.eventMessages mediaOf)).map shapeOf
      ∧ SC.lastIsLoading (s.messages ++ delta) = false := by
  induction events generalizing s with
  | nil =>
    refine ⟨[], s.isModelThinking, ?_, by simp, by simpa using hnl⟩
    obtain ⟨msgs, idx, think⟩ := s
    simp only at h0
    subst h0
    simp [MPS.replayLive]
  | cons e es ih =>
    obtain ⟨d1, th1, he, hshape1, hnl1⟩ := live_event_fold mediaOf e
      (hgood e (by simp)) s h0 hnl
    rw [replayLive_cons, he]
    obtain ⟨d2, th2, he2, hshape2, hnl2⟩ := ih
      (fun x hx => hgood x (by simp [hx]))
      (ChatState.mk (s.messages ++ d1) none th1) rfl hnl1
    refine ⟨d1 ++ d2, th2, ?_, ?_, ?_⟩
    · rw [he2]
      simp
    · rw [List.flatMap_cons, List.map_append, List.map_append, hshape1,
        hshape2]
    · simpa [List.append_assoc] using hnl2

/-- C4 (amended): for history events that are not user-authored, whose parts
are all classifiable into the four shared cases (truthy text, functionCall,
functionResponse, inlineData), with at most one truthy text part placed
first, its text untouched by the live normalizations (no trailing
whitespace, no planning/action marker when it is a thought),
`transformSessionEvents` produces the same sequence of message shapes
(role, text, thought flag, functionCall / functionResponse / inlineData
content) as folding the same parts through the live-chunk `processPart`
rules.  Without those restrictions the two disagree: the history transform
merges all text parts of an event into one message hoisted to the front,
maps user-authored events to user roles, skips the live trimming and marker
stripping, and pushes an empty message for unsupported parts — see the
counterexample. -/
theorem history_replay_shape_refinement (mediaOf : String → String)
    (events : List MPS.SessionEvent)
    (hgood : ∀ e ∈ events, goodEvent e = true) :
    ((MPS.replayLive mediaOf events emptyState).messages).map shapeOf
      = (MPS.transformSessionEvents mediaOf events).map shapeOf := by
  obtain ⟨delta, think2, heq, hshape, -⟩ := replay_refines mediaOf events hgood
    emptyState rfl rfl
  rw [heq, transform_eq_flatMap]
  simpa [emptyState] using hshape

/-- C4 counterexample: an event with two non-thought text parts is merged
into a single message by the history transform but yields two messages
through the live rules, so the shape sequences differ. -/
theorem history_replay_not_identical :
    ¬ (((MPS.replayLive mediaOf0 [evTwoTexts] emptyState).messages).map shapeOf
        = (MPS.transformSessionEvents mediaOf0 [evTwoTexts]).map shapeOf) := by
  decide

/-- Witness for C4 (amended) at a concrete good event: one text part first,
then a function call. -/
theorem history_replay_shape_refinement_witness :
    ((MPS.replayLive mediaOf0 [evGood] emptyState).messages).map shapeOf
      = (MPS.transformSessionEvents mediaOf0 [evGood]).map shapeOf :=
  history_replay_shape_refinement mediaOf0 [evGood] (by decide)

end Adk
